import Mathlib

/-!
Shallow embedding of the `codex-kaioken` memory subsystem and subagent
handler (Rust sources under `codex-rs/core/src/`), together with proofs
checking the natural-language specification against the code.

Conventions of the embedding:
* Rust `f64` / `f32` arithmetic values (importances, scores) are modelled
  as exact rationals (`ℚ`) or reals (`ℝ`) where the code computes with
  them; `f32` *bit patterns* (for byte serialization) are modelled as
  natural numbers below `2^32`.
* Rust byte-indexed string slicing (`&s[..n]`), which panics when `n` is
  not a UTF-8 character boundary, is modelled with `Option`: `none`
  stands for the panic.
* The SQLite table of memories is modelled as a list of rows; SQL
  statements become list transformations that mirror the statement's
  `WHERE` / `ORDER BY` clauses.
* Identifiers, timestamps and logging are dropped where no claim under
  consideration mentions them.
-/

/-! ## Memory kinds and records (`memory/types.rs`) -/

/-- `MemoryType` from `memory/types.rs`: the six kinds of memory. -/
inductive MemoryType where
  | fact
  | pattern
  | decision
  | lesson
  | preference
  | location
  deriving DecidableEq, Repr

namespace MemoryType

/-- `MemoryType::decays`: Lessons and Decisions never decay. -/
def decays : MemoryType → Bool
  | .lesson => false
  | .decision => false
  | _ => true

/-- `MemoryType::default_importance`. -/
def default_importance : MemoryType → ℚ
  | .lesson => 9/10
  | .decision => 85/100
  | .preference => 8/10
  | .pattern => 7/10
  | .location => 6/10
  | .fact => 5/10

/-- `MemoryType::as_str`: the string stored in the `type` column. -/
def as_str : MemoryType → String
  | .fact => "fact"
  | .pattern => "pattern"
  | .decision => "decision"
  | .lesson => "lesson"
  | .preference => "preference"
  | .location => "location"

end MemoryType

/-- A memory record (`Memory` in `memory/types.rs`).  The `id`,
`created_at`, `last_used`, `use_count` and `embedding_id` fields play no
role in the claims below and are omitted from the embedding. -/
structure Memory where
  memory_type : MemoryType
  content : String
  context : Option String := none
  source_file : Option String := none
  importance : ℚ
  deriving DecidableEq, Repr

namespace Memory

/-- `Memory::new`: fresh record with the kind's default importance. -/
def new (t : MemoryType) (content : String) : Memory :=
  { memory_type := t, content := content, importance := t.default_importance }

/-- `Memory::with_context`. -/
def with_context (m : Memory) (ctx : String) : Memory :=
  { m with context := some ctx }

/-- `Memory::with_source_file`. -/
def with_source_file (m : Memory) (p : String) : Memory :=
  { m with source_file := some p }

/-- `Memory::with_importance`: clamps into `[0, 1]`. -/
def with_importance (m : Memory) (i : ℚ) : Memory :=
  { m with importance := max 0 (min 1 i) }

end Memory

/-! ## The store as a list of rows (`memory/store.rs`) -/

/-- The `memories` table, as the list of its rows in rowid order. -/
abbrev Store := List Memory

namespace MemoryStore

/-- `MemoryStore::insert`: appends a row; duplicates are not rejected. -/
def insert (rows : Store) (m : Memory) : Store := rows ++ [m]

/-- `MemoryStore::exists_similar`: exact content match with same type
(`SELECT EXISTS(... WHERE content = ?1 AND type = ?2)`). -/
def exists_similar (rows : Store) (content : String) (t : MemoryType) : Bool :=
  rows.any fun m => m.content = content ∧ m.memory_type = t

/-- The `WHERE type IN ('fact','pattern','preference','location')`
clause of `apply_decay` (the list built from `decaying_types`). -/
def in_decaying_types (m : Memory) : Prop :=
  m.memory_type.as_str = "fact" ∨ m.memory_type.as_str = "pattern"
    ∨ m.memory_type.as_str = "preference" ∨ m.memory_type.as_str = "location"

instance (m : Memory) : Decidable (in_decaying_types m) := by
  unfold in_decaying_types; infer_instance

/-- Effect of the `apply_decay` UPDATE on one row. -/
def decay_row (decay_rate : ℚ) (m : Memory) : Memory :=
  if in_decaying_types m then { m with importance := m.importance * decay_rate } else m

/-- `MemoryStore::apply_decay`: the SQL
`UPDATE memories SET importance = importance * rate WHERE type IN
('fact','pattern','preference','location')`.  Returns the new rows and
the number of rows the statement touched (SQLite counts every matched
row as changed). -/
def apply_decay (decay_rate : ℚ) (rows : Store) : Store × Nat :=
  (rows.map (decay_row decay_rate), rows.countP fun m => in_decaying_types m)

/-- `MemoryStore::prune_low_importance`: the SQL
`DELETE FROM memories WHERE importance < threshold AND
type NOT IN ('lesson', 'decision')`.  Returns the surviving rows and the
number of deleted rows. -/
def prune_low_importance (threshold : ℚ) (rows : Store) : Store × Nat :=
  (rows.filter fun m =>
      ¬(m.importance < threshold
          ∧ m.memory_type.as_str ≠ "lesson" ∧ m.memory_type.as_str ≠ "decision"),
   rows.countP fun m =>
      m.importance < threshold
        ∧ m.memory_type.as_str ≠ "lesson" ∧ m.memory_type.as_str ≠ "decision")

end MemoryStore

/-! ## Embedding byte serialization (`memory/embedding.rs`)

An `f32` is modelled by its 32-bit representation, a natural number
below `2^32`; `f32::to_le_bytes` / `f32::from_le_bytes` act purely on
that representation. -/

/-- `f32::to_le_bytes` on the 32-bit representation `w`. -/
def f32ToLeBytes (w : ℕ) : List ℕ :=
  [w % 256, w / 256 % 256, w / 256 ^ 2 % 256, w / 256 ^ 3 % 256]

/-- `f32::from_le_bytes` on a 4-byte chunk (the `try_into` of
`bytes_to_embedding`); `none` on any chunk whose length is not 4. -/
def f32FromLeChunk : List ℕ → Option ℕ
  | [b0, b1, b2, b3] => some (b0 + 256 * (b1 + 256 * (b2 + 256 * b3)))
  | _ => none

/-- `slice::chunks(4)`. -/
def chunks4 : List ℕ → List (List ℕ)
  | b0 :: b1 :: b2 :: b3 :: rest => [b0, b1, b2, b3] :: chunks4 rest
  | [] => []
  | rest => [rest]

/-- `embedding_to_bytes`: 4 little-endian bytes per float, in order. -/
def embedding_to_bytes (embedding : List ℕ) : List ℕ :=
  embedding.flatMap f32ToLeBytes

/-- `bytes_to_embedding`: fails when the byte length is not a multiple
of 4, otherwise recombines each 4-byte chunk. -/
def bytes_to_embedding (bytes : List ℕ) : Option (List ℕ) :=
  if bytes.length % 4 ≠ 0 then none
  else (chunks4 bytes).mapM f32FromLeChunk

/-! ### Lemmas about byte serialization -/

lemma f32FromLeChunk_toLeBytes (w : ℕ) (hw : w < 2 ^ 32) :
    f32FromLeChunk (f32ToLeBytes w) = some w := by
  simp only [f32ToLeBytes, f32FromLeChunk, Option.some.injEq]
  omega

lemma embedding_to_bytes_cons (w : ℕ) (v : List ℕ) :
    embedding_to_bytes (w :: v) = f32ToLeBytes w ++ embedding_to_bytes v := by
  simp [embedding_to_bytes]

lemma length_embedding_to_bytes (v : List ℕ) :
    (embedding_to_bytes v).length = 4 * v.length := by
  induction v with
  | nil => rfl
  | cons w rest ih =>
      rw [embedding_to_bytes_cons, List.length_append, ih]
      simp [f32ToLeBytes]
      ring

lemma chunks4_f32ToLeBytes_append (w : ℕ) (b : List ℕ) :
    chunks4 (f32ToLeBytes w ++ b) = f32ToLeBytes w :: chunks4 b := rfl

lemma chunks4_mapM_embedding (v : List ℕ) (h : ∀ w ∈ v, w < 2 ^ 32) :
    (chunks4 (embedding_to_bytes v)).mapM f32FromLeChunk = some v := by
  induction v with
  | nil => rfl
  | cons w rest ih =>
      have hw : w < 2 ^ 32 := h w (by simp)
      have hrest : ∀ x ∈ rest, x < 2 ^ 32 := fun x hx => h x (by simp [hx])
      rw [embedding_to_bytes_cons, chunks4_f32ToLeBytes_append, List.mapM_cons,
        f32FromLeChunk_toLeBytes w hw, ih hrest]
      rfl

lemma chunks4_mapM_isSome (b : List ℕ) (h : b.length % 4 = 0) :
    ∃ v, (chunks4 b).mapM f32FromLeChunk = some v := by
  match b with
  | [] => exact ⟨[], rfl⟩
  | [b0] => simp at h
  | [b0, b1] => simp at h
  | [b0, b1, b2] => simp at h
  | b0 :: b1 :: b2 :: b3 :: rest =>
      obtain ⟨v, hv⟩ := chunks4_mapM_isSome rest
        (by simp only [List.length_cons] at h; omega)
      refine ⟨(b0 + 256 * (b1 + 256 * (b2 + 256 * b3))) :: v, ?_⟩
      rw [show chunks4 (b0 :: b1 :: b2 :: b3 :: rest) = [b0, b1, b2, b3] :: chunks4 rest
          from rfl, List.mapM_cons, hv]
      rfl
termination_by b.length

/-- C7: serialization is 4 little-endian bytes per float in order, so
`bytes_to_embedding (embedding_to_bytes v) = Some v` for every `f32`
vector `v` (each element a 32-bit word), and `bytes_to_embedding b`
returns `None` exactly when the byte length is not a multiple of 4. -/
theorem C7_embedding_bytes_roundtrip :
    (∀ v : List ℕ, (∀ w ∈ v, w < 2 ^ 32) →
        bytes_to_embedding (embedding_to_bytes v) = some v) ∧
    (∀ b : List ℕ, bytes_to_embedding b = none ↔ b.length % 4 ≠ 0) := by
  constructor
  · intro v hv
    rw [bytes_to_embedding, if_neg (by simp [length_embedding_to_bytes v])]
    exact chunks4_mapM_embedding v hv
  · intro b
    constructor
    · intro hnone hlen
      obtain ⟨v, hv⟩ := chunks4_mapM_isSome b hlen
      rw [bytes_to_embedding, if_neg (by simpa using hlen), hv] at hnone
      exact Option.noConfusion hnone
    · intro hlen
      rw [bytes_to_embedding, if_pos hlen]

/-- Witness for C7 at a concrete vector and a concrete odd-length byte
string. -/
theorem C7_embedding_bytes_roundtrip_witness :
    bytes_to_embedding (embedding_to_bytes [0, 1, 4294967295]) = some [0, 1, 4294967295]
      ∧ (bytes_to_embedding [1, 2, 3] = none ↔ [1, 2, 3].length % 4 ≠ 0) :=
  ⟨C7_embedding_bytes_roundtrip.1 [0, 1, 4294967295] (by decide),
   C7_embedding_bytes_roundtrip.2 [1, 2, 3]⟩

/-! ### C4: decay and prune spare Lessons and Decisions -/

lemma in_decaying_types_iff (m : Memory) :
    MemoryStore.in_decaying_types m ↔ m.memory_type.decays = true := by
  cases h : m.memory_type <;>
    simp [MemoryStore.in_decaying_types, MemoryType.as_str, MemoryType.decays, h]

lemma decay_row_eq_of_not_decaying (rate : ℚ) (m : Memory)
    (h : m.memory_type = .lesson ∨ m.memory_type = .decision) :
    MemoryStore.decay_row rate m = m := by
  rw [MemoryStore.decay_row, if_neg]
  rw [in_decaying_types_iff]
  rcases h with h | h <;> simp [h, MemoryType.decays]

/-- C4: rows of kind Lesson or Decision are exactly preserved (same row
at the same position) by any number of `apply_decay` calls, and are never
deleted by `prune_low_importance`; `apply_decay` multiplies the
importance by the decay rate exactly for the four decaying kinds and
returns the number of rows the UPDATE touched. -/
theorem C4_lessons_decisions_never_decay :
    (∀ (rate : ℚ) (rows : Store) (n i : ℕ) (m : Memory),
        rows[i]? = some m →
        (m.memory_type = .lesson ∨ m.memory_type = .decision) →
        ((fun r => (MemoryStore.apply_decay rate r).1)^[n] rows)[i]? = some m) ∧
    (∀ (threshold : ℚ) (rows : Store) (m : Memory),
        m ∈ rows →
        (m.memory_type = .lesson ∨ m.memory_type = .decision) →
        m ∈ (MemoryStore.prune_low_importance threshold rows).1) ∧
    (∀ (rate : ℚ) (rows : Store) (i : ℕ) (m : Memory),
        rows[i]? = some m →
        (MemoryStore.apply_decay rate rows).1[i]? =
          some (if m.memory_type.decays then
                  { m with importance := m.importance * rate }
                else m)) ∧
    (∀ (rate : ℚ) (rows : Store),
        (MemoryStore.apply_decay rate rows).2 =
          rows.countP fun m => m.memory_type.decays) := by
  refine ⟨?_, ?_, ?_, ?_⟩
  · intro rate rows n
    induction n with
    | zero => intro i m hm _; simpa using hm
    | succ k ih =>
        intro i m hm hld
        rw [Function.iterate_succ_apply']
        show (List.map (MemoryStore.decay_row rate) _)[i]? = some m
        rw [List.getElem?_map, ih i m hm hld]
        show some (MemoryStore.decay_row rate m) = some m
        rw [decay_row_eq_of_not_decaying rate m hld]
  · intro threshold rows m hm hld
    simp only [MemoryStore.prune_low_importance, List.mem_filter]
    refine ⟨hm, ?_⟩
    rcases hld with h | h <;> simp [h, MemoryType.as_str]
  · intro rate rows i m hm
    show (List.map (MemoryStore.decay_row rate) rows)[i]? = _
    rw [List.getElem?_map, hm]
    show some (MemoryStore.decay_row rate m) = _
    rw [MemoryStore.decay_row]
    cases h : m.memory_type.decays
    · rw [if_neg, if_neg] <;> simp [in_decaying_types_iff, h]
    · rw [if_pos, if_pos] <;> simp [in_decaying_types_iff, h]
  · intro rate rows
    simp only [MemoryStore.apply_decay]
    exact List.countP_congr fun m _ => by
      simp [in_decaying_types_iff m]

/-- Witness for C4 on a concrete two-row store: a Lesson of importance
0.05 survives three decay cycles and a prune, while a Fact row decays. -/
theorem C4_lessons_decisions_never_decay_witness :
    (((fun r => (MemoryStore.apply_decay (95/100) r).1)^[3]
        [{ memory_type := .lesson, content := "L", importance := 5/100 },
         { memory_type := .fact, content := "F", importance := 5/10 }])[0]? =
      some { memory_type := .lesson, content := "L", importance := 5/100 }) ∧
    ({ memory_type := .lesson, content := "L", importance := 5/100 : Memory } ∈
      (MemoryStore.prune_low_importance (1/10)
        [{ memory_type := .lesson, content := "L", importance := 5/100 },
         { memory_type := .fact, content := "F", importance := 5/10 }]).1) ∧
    ((MemoryStore.apply_decay (95/100)
        [{ memory_type := .lesson, content := "L", importance := 5/100 },
         { memory_type := .fact, content := "F", importance := 5/10 }]).1[1]? =
      some { memory_type := .fact, content := "F", importance := 5/10 * (95/100) }) :=
  ⟨C4_lessons_decisions_never_decay.1 (95/100) _ 3 0
      { memory_type := .lesson, content := "L", importance := 5/100 } rfl
      (Or.inl rfl),
   C4_lessons_decisions_never_decay.2.1 (1/10) _
      { memory_type := .lesson, content := "L", importance := 5/100 }
      (List.Mem.head _) (Or.inl rfl),
   by
    have h := C4_lessons_decisions_never_decay.2.2.1 (95/100)
      [{ memory_type := .lesson, content := "L", importance := 5/100 },
       { memory_type := .fact, content := "F", importance := 5/10 }] 1
      { memory_type := .fact, content := "F", importance := 5/10 } rfl
    simpa [MemoryType.decays] using h⟩

/-! ## Cosine similarity (`memory/embedding.rs`)

`f32` arithmetic is modelled over `ℝ`: sums, products, `sqrt` and
division are the exact real operations. -/

namespace EmbeddingService

/-- `EmbeddingService::cosine_similarity`: 0 on length mismatch or
zero-norm input, else `dot(a,b) / (‖a‖·‖b‖)`. -/
noncomputable def cosine_similarity (a b : List ℝ) : ℝ :=
  if a.length ≠ b.length then 0
  else
    let dot_product := ((a.zip b).map fun p => p.1 * p.2).sum
    let norm_a := Real.sqrt ((a.map fun x => x * x).sum)
    let norm_b := Real.sqrt ((b.map fun x => x * x).sum)
    if norm_a = 0 ∨ norm_b = 0 then 0
    else dot_product / (norm_a * norm_b)

/-- The Euclidean norm computed by `cosine_similarity`. -/
noncomputable def norm_of (a : List ℝ) : ℝ :=
  Real.sqrt ((a.map fun x => x * x).sum)

end EmbeddingService

lemma sumsq_nonneg (a : List ℝ) : 0 ≤ (a.map fun x => x * x).sum := by
  apply List.sum_nonneg
  intro y hy
  obtain ⟨x, -, rfl⟩ := List.mem_map.mp hy
  exact mul_self_nonneg x

lemma sumsq_eq_zero_iff (a : List ℝ) :
    (a.map fun x => x * x).sum = 0 ↔ ∀ x ∈ a, x = 0 := by
  induction a with
  | nil => simp
  | cons x xs ih =>
      simp only [List.map_cons, List.sum_cons]
      rw [add_eq_zero_iff_of_nonneg (mul_self_nonneg x) (sumsq_nonneg xs)]
      simp [mul_self_eq_zero, ih]

/-- C8: `cosine_similarity` returns 0 on length mismatch and on
zero-norm input, and otherwise returns the dot product divided by the
product of the Euclidean norms; having zero norm means every coordinate
is zero. -/
theorem C8_cosine_similarity_spec :
    (∀ a b : List ℝ, a.length ≠ b.length →
        EmbeddingService.cosine_similarity a b = 0) ∧
    (∀ a b : List ℝ,
        EmbeddingService.norm_of a = 0 ∨ EmbeddingService.norm_of b = 0 →
        EmbeddingService.cosine_similarity a b = 0) ∧
    (∀ a b : List ℝ, a.length = b.length →
        EmbeddingService.norm_of a ≠ 0 → EmbeddingService.norm_of b ≠ 0 →
        EmbeddingService.cosine_similarity a b =
          ((a.zip b).map fun p => p.1 * p.2).sum
            / (EmbeddingService.norm_of a * EmbeddingService.norm_of b)) ∧
    (∀ a : List ℝ, EmbeddingService.norm_of a = 0 ↔ ∀ x ∈ a, x = 0) := by
  refine ⟨?_, ?_, ?_, ?_⟩
  · intro a b h
    rw [EmbeddingService.cosine_similarity, if_pos h]
  · intro a b h
    rw [EmbeddingService.cosine_similarity]
    by_cases hlen : a.length ≠ b.length
    · rw [if_pos hlen]
    · rw [if_neg hlen]
      show (if EmbeddingService.norm_of a = 0 ∨ EmbeddingService.norm_of b = 0
          then (0 : ℝ) else _) = 0
      rw [if_pos h]
  · intro a b hlen hna hnb
    rw [EmbeddingService.cosine_similarity, if_neg (by simpa using hlen)]
    show (if EmbeddingService.norm_of a = 0 ∨ EmbeddingService.norm_of b = 0
        then (0 : ℝ) else _) = _
    rw [if_neg (by tauto)]
    rfl
  · intro a
    rw [EmbeddingService.norm_of, Real.sqrt_eq_zero (sumsq_nonneg a),
      sumsq_eq_zero_iff]

/-- Witness for C8: a length mismatch, a zero vector, and the unit
vector `[1]` against itself. -/
theorem C8_cosine_similarity_spec_witness :
    EmbeddingService.cosine_similarity [1] [] = 0 ∧
    EmbeddingService.cosine_similarity [0] [0] = 0 ∧
    EmbeddingService.cosine_similarity [1] [1] =
      (([1].zip [1] : List (ℝ × ℝ)).map fun p => p.1 * p.2).sum
        / (EmbeddingService.norm_of [1] * EmbeddingService.norm_of [1]) :=
  ⟨C8_cosine_similarity_spec.1 [1] [] (by simp),
   C8_cosine_similarity_spec.2.1 [0] [0]
     (Or.inl (by simp [EmbeddingService.norm_of])),
   C8_cosine_similarity_spec.2.2.1 [1] [1] rfl
     (by simp [EmbeddingService.norm_of])
     (by simp [EmbeddingService.norm_of])⟩

/-! ## Retriever diversification (`memory/retriever.rs`) -/

/-- `ScoredMemory` from `memory/types.rs` (scores are `f64`, modelled
over `ℝ`). -/
structure ScoredMemory where
  memory : Memory
  semantic_score : ℝ
  combined_score : ℝ

/-- Stable insertion of `x` into a descending-sorted list: `x` goes
after every element whose key is ≥ its own. -/
def insertDescBy {α β : Type*} [LinearOrder β] (key : α → β) (x : α) :
    List α → List α
  | [] => [x]
  | y :: ys => if key x ≤ key y then y :: insertDescBy key x ys else x :: y :: ys

/-- Stable descending sort by key; models Rust's stable
`sort_by(|a, b| b.partial_cmp(a))` on NaN-free keys. -/
def sortDescBy {α β : Type*} [LinearOrder β] (key : α → β) : List α → List α
  | [] => []
  | x :: xs => insertDescBy key x (sortDescBy key xs)

/-- Number of selected items of one kind (per-type count). -/
def countKind (t : MemoryType) (l : List ScoredMemory) : ℕ :=
  l.countP fun sm => sm.memory.memory_type = t

namespace MemoryRetriever

/-- The selection loop of `diverse_top_k`: walk the sorted candidates,
admitting an item while its kind is under `max_per_type` or fewer than
`k / 2` items have been selected; stop once `k` items are selected. -/
def select_diverse (max_per_type k : ℕ) :
    List ScoredMemory → List ScoredMemory → (MemoryType → ℕ) → List ScoredMemory
  | [], result, _ => result
  | sm :: rest, result, counts =>
      if counts sm.memory.memory_type < max_per_type ∨ result.length < k / 2 then
        let result' := result ++ [sm]
        if k ≤ result'.length then result'
        else
          select_diverse max_per_type k rest result'
            (fun t => if t = sm.memory.memory_type then counts t + 1 else counts t)
      else select_diverse max_per_type k rest result counts

/-- `MemoryRetriever::diverse_top_k`: lists of at most `k` candidates
are returned unchanged; otherwise the candidates are re-sorted by
combined score and filtered by the per-kind selection loop with cap
`max(k / 3, 2)`. -/
noncomputable def diverse_top_k (scored : List ScoredMemory) (k : ℕ) :
    List ScoredMemory :=
  if scored.length ≤ k then scored
  else
    let max_per_type := max (k / 3) 2
    let sorted := sortDescBy (fun sm => sm.combined_score) scored
    select_diverse max_per_type k sorted [] fun _ => 0

end MemoryRetriever

/-- The diversification bound exactly as the spec claims it: whenever
at least 4 items are retrieved (with `k ≥ 4`), drawn from at least two
kinds, and at least `⌈k/2⌉` candidates exist, no kind contributes more
than `⌈k/3⌉ + 1` of the returned items. -/
def spec_diversification_bound : Prop :=
  ∀ (scored : List ScoredMemory) (k : ℕ),
    4 ≤ k →
    4 ≤ (MemoryRetriever.diverse_top_k scored k).length →
    2 ≤ ((MemoryRetriever.diverse_top_k scored k).map
          fun sm => sm.memory.memory_type).dedup.length →
    (k + 1) / 2 ≤ scored.length →
    ∀ t, countKind t (MemoryRetriever.diverse_top_k scored k) ≤ (k + 2) / 3 + 1

/-- Four Facts and one Pattern, all with combined score 0. -/
def c2_candidates : List ScoredMemory :=
  [⟨Memory.new .fact "f1", 0, 0⟩, ⟨Memory.new .fact "f2", 0, 0⟩,
   ⟨Memory.new .fact "f3", 0, 0⟩, ⟨Memory.new .fact "f4", 0, 0⟩,
   ⟨Memory.new .pattern "p1", 0, 0⟩]

lemma countKind_append (t : MemoryType) (l1 l2 : List ScoredMemory) :
    countKind t (l1 ++ l2) = countKind t l1 + countKind t l2 :=
  List.countP_append _ _ _

lemma countKind_le_length (t : MemoryType) (l : List ScoredMemory) :
    countKind t l ≤ l.length :=
  List.countP_le_length _

lemma select_diverse_countKind_le (mpt k : ℕ) (t : MemoryType) :
    ∀ (l result : List ScoredMemory) (counts : MemoryType → ℕ),
      (∀ t1, counts t1 = countKind t1 result) →
      (∀ t1, counts t1 ≤ max mpt (k / 2)) →
      countKind t (MemoryRetriever.select_diverse mpt k l result counts)
        ≤ max mpt (k / 2) := by
  intro l
  induction l with
  | nil =>
      intro result counts hc hb
      rw [MemoryRetriever.select_diverse, ← hc t]
      exact hb t
  | cons sm rest ih =>
      intro result counts hc hb
      have hsingle : ∀ t1, countKind t1 [sm] =
          if t1 = sm.memory.memory_type then 1 else 0 := by
        intro t1
        by_cases h1 : t1 = sm.memory.memory_type
        · simp [countKind, h1]
        · have h2 : ¬ sm.memory.memory_type = t1 := fun h => h1 h.symm
          simp [countKind, h2, if_neg h1]
      rw [MemoryRetriever.select_diverse]
      split
      case isTrue hcond =>
        have hc' : ∀ t1, (fun t2 => if t2 = sm.memory.memory_type
            then counts t2 + 1 else counts t2) t1 = countKind t1 (result ++ [sm]) := by
          intro t1
          rw [countKind_append, ← hc t1, hsingle t1]
          by_cases h1 : t1 = sm.memory.memory_type <;> simp [h1]
        have hb' : ∀ t1, (fun t2 => if t2 = sm.memory.memory_type
            then counts t2 + 1 else counts t2) t1 ≤ max mpt (k / 2) := by
          intro t1
          show (if t1 = sm.memory.memory_type then counts t1 + 1 else counts t1)
            ≤ max mpt (k / 2)
          by_cases h1 : t1 = sm.memory.memory_type
          · rw [if_pos h1]
            rcases hcond with hlt | hlen
            · refine le_trans ?_ (Nat.le_max_left mpt (k / 2))
              rw [h1]
              omega
            · refine le_trans ?_ (Nat.le_max_right mpt (k / 2))
              have hcl : counts t1 ≤ result.length := by
                rw [hc t1]
                exact countKind_le_length t1 result
              omega
          · rw [if_neg h1]
            exact hb t1
        show countKind t
            (if k ≤ (result ++ [sm]).length then result ++ [sm]
             else MemoryRetriever.select_diverse mpt k rest (result ++ [sm])
               fun t2 => if t2 = sm.memory.memory_type then counts t2 + 1 else counts t2)
          ≤ max mpt (k / 2)
        split
        case isTrue hk =>
          rw [← hc' t]
          exact hb' t
        case isFalse hk => exact ih _ _ (fun t1 => hc' t1) hb'
      case isFalse hcond => exact ih result counts hc hb

/-- Amended C2: the per-kind bound the code actually enforces when it
diversifies at all (more than `k` candidates) is
`max (max (k/3) 2) (k/2)` with truncating division; with at most `k`
candidates the list is returned unchanged, with no per-kind bound. -/
theorem C2_diverse_top_k_amended (scored : List ScoredMemory) (k : ℕ)
    (t : MemoryType) :
    (scored.length ≤ k → MemoryRetriever.diverse_top_k scored k = scored) ∧
    (k < scored.length →
      countKind t (MemoryRetriever.diverse_top_k scored k)
        ≤ max (max (k / 3) 2) (k / 2)) := by
  constructor
  · intro h
    simp only [MemoryRetriever.diverse_top_k]
    rw [if_pos h]
  · intro h
    simp only [MemoryRetriever.diverse_top_k]
    rw [if_neg (by omega)]
    exact select_diverse_countKind_le (max (k / 3) 2) k t
      (sortDescBy (fun sm => sm.combined_score) scored) [] (fun _ => 0)
      (fun t1 => rfl) (fun t1 => Nat.zero_le _)

/-- Counterexample to C2 as stated: with `k = 5` and the five candidates
`c2_candidates` (four Facts, one Pattern), `diverse_top_k` returns all
five items unchanged, so kind Fact contributes `4 > ⌈5/3⌉ + 1 = 3`
returned items even though 5 items of 2 kinds were retrieved and
`5 ≥ ⌈5/2⌉` candidates exist. -/
theorem C2_diversification_counterexample : ¬ spec_diversification_bound := by
  intro h
  have hres : MemoryRetriever.diverse_top_k c2_candidates 5 = c2_candidates := by
    simp only [MemoryRetriever.diverse_top_k]
    rw [if_pos (by simp [c2_candidates])]
  have h4 := h c2_candidates 5 (by norm_num)
    (by rw [hres]; simp [c2_candidates])
    (by rw [hres]; decide) (by simp [c2_candidates]) .fact
  rw [hres] at h4
  have hcount : countKind .fact c2_candidates = 4 := by decide
  omega

/-- Witness for the amended C2 at `k = 5` (unchanged-list branch) and
`k = 4` (diversifying branch) on the concrete candidate list. -/
theorem C2_diverse_top_k_amended_witness :
    MemoryRetriever.diverse_top_k c2_candidates 5 = c2_candidates ∧
    countKind .fact (MemoryRetriever.diverse_top_k c2_candidates 4)
      ≤ max (max (4 / 3) 2) (4 / 2) :=
  ⟨(C2_diverse_top_k_amended c2_candidates 5 .fact).1 (by decide),
   (C2_diverse_top_k_amended c2_candidates 4 .fact).2 (by decide)⟩

/-! ## Similarity search (`memory/store.rs`) -/

/-- ASCII lowering, as SQLite `LIKE` applies to ASCII letters. -/
def asciiLower (c : Char) : Char :=
  if 'A' ≤ c ∧ c ≤ 'Z' then Char.ofNat (c.toNat + 32) else c

/-- Substring test on character lists. -/
def isSubstr (needle hay : List Char) : Bool :=
  (List.range (hay.length + 1)).any fun i => needle.isPrefixOf (hay.drop i)

/-- SQL `content LIKE '%kw%'`: ASCII-case-insensitive substring match. -/
def likeContains (content kw : String) : Bool :=
  isSubstr (kw.toList.map asciiLower) (content.toList.map asciiLower)

/-- Helper for `split_whitespace`: walk the characters, accumulating the
current word reversed. -/
def splitWsAux : List Char → List Char → List String
  | [], acc => if acc = [] then [] else [String.mk acc.reverse]
  | c :: cs, acc =>
      if c.isWhitespace then
        if acc = [] then splitWsAux cs []
        else String.mk acc.reverse :: splitWsAux cs []
      else splitWsAux cs (c :: acc)

/-- Rust `str::split_whitespace`: maximal non-whitespace runs, in order,
with no empty pieces. -/
def split_whitespace (q : String) : List String := splitWsAux q.toList []

namespace MemoryStore

/-- `MemoryStore::search_by_keywords`: empty keyword list returns `[]`;
otherwise a disjunctive `LIKE` filter ordered by importance descending. -/
def search_by_keywords (keywords : List String) (rows : Store) : List Memory :=
  if keywords = [] then []
  else
    sortDescBy (fun m => m.importance)
      (rows.filter fun m => keywords.any fun kw => likeContains m.content kw)

/-- `MemoryStore::search_by_similarity` over rows paired with their
decoded embedding (`none` models both a NULL blob and an undecodable
one, which the code's `filter_map` drops).  With an embedding service:
embed the query, score every embedded row by cosine similarity, sort
descending, truncate to `limit`.  Without: keyword-search the first five
whitespace tokens and pair every hit with similarity 0.5 — the code
returns that list directly. -/
noncomputable def search_by_similarity (svc : Option (String → List ℝ))
    (rows : List (Memory × Option (List ℝ))) (query : String) (limit : ℕ) :
    List (Memory × ℝ) :=
  match svc with
  | none =>
      let keywords := (split_whitespace query).take 5
      let memories := search_by_keywords keywords (rows.map Prod.fst)
      memories.map fun m => (m, (1 / 2 : ℝ))
  | some embed =>
      let query_embedding := embed query
      let memories_with_embeddings := rows.filterMap fun r => r.2.map fun e => (r.1, e)
      let scored := memories_with_embeddings.map fun me =>
        (me.1, EmbeddingService.cosine_similarity query_embedding me.2)
      (sortDescBy (fun p => p.2) scored).take limit

end MemoryStore

/-- The part of C3 the code violates: the result never exceeds `limit`
entries. -/
def spec_search_at_most_limit : Prop :=
  ∀ (svc : Option (String → List ℝ)) (rows : List (Memory × Option (List ℝ)))
    (query : String) (limit : ℕ),
    (MemoryStore.search_by_similarity svc rows query limit).length ≤ limit

/-- Two keyword-matching rows for the C3 counterexample. -/
def c3_rows : List (Memory × Option (List ℝ)) :=
  [({ memory_type := .fact, content := "alpha one", importance := 1 }, none),
   ({ memory_type := .fact, content := "alpha two", importance := 0 }, none)]

lemma mem_insertDescBy {α β : Type*} [LinearOrder β] (key : α → β) (x y : α)
    (l : List α) : y ∈ insertDescBy key x l ↔ y = x ∨ y ∈ l := by
  induction l with
  | nil => simp [insertDescBy]
  | cons z zs ih =>
      rw [insertDescBy]
      split
      · simp only [List.mem_cons, ih]
        tauto
      · simp [List.mem_cons]

lemma head?_insertDescBy {α β : Type*} [LinearOrder β] (key : α → β) (x : α)
    (l : List α) :
    (insertDescBy key x l).head? = some x ∨ (insertDescBy key x l).head? = l.head? := by
  cases l with
  | nil => left; rfl
  | cons y ys =>
      rw [insertDescBy]
      split
      · right; rfl
      · left; rfl

lemma chain'_insertDescBy {α β : Type*} [LinearOrder β] (key : α → β) (x : α)
    (l : List α) (h : List.Chain' (fun a b => key b ≤ key a) l) :
    List.Chain' (fun a b => key b ≤ key a) (insertDescBy key x l) := by
  induction l with
  | nil => simp [insertDescBy]
  | cons y ys ih =>
      rw [insertDescBy]
      split
      case isTrue hxy =>
        rw [List.chain'_cons']
        refine ⟨?_, ih (List.chain'_cons'.mp h).2⟩
        intro z hz
        rcases head?_insertDescBy key x ys with h1 | h1
        · rw [h1, Option.mem_def, Option.some.injEq] at hz
          rw [← hz]
          exact hxy
        · rw [h1] at hz
          exact (List.chain'_cons'.mp h).1 z hz
      case isFalse hxy =>
        rw [List.chain'_cons]
        exact ⟨le_of_not_le hxy, h⟩

lemma chain'_sortDescBy {α β : Type*} [LinearOrder β] (key : α → β) (l : List α) :
    List.Chain' (fun a b => key b ≤ key a) (sortDescBy key l) := by
  induction l with
  | nil => simp [sortDescBy]
  | cons x xs ih => exact chain'_insertDescBy key x _ ih

lemma mem_sortDescBy {α β : Type*} [LinearOrder β] (key : α → β) (y : α)
    (l : List α) : y ∈ sortDescBy key l ↔ y ∈ l := by
  induction l with
  | nil => simp [sortDescBy]
  | cons x xs ih =>
      rw [sortDescBy, mem_insertDescBy]
      simp [ih]

/-- Amended C3: with an embedding service the result has at most `limit`
entries, is sorted by score descending, and every returned pair carries
the cosine similarity of the query embedding with that row's stored
embedding.  Without the service, the result is exactly the keyword
search over the query's first five whitespace tokens with every score
0.5 — in particular the limit is NOT applied on this path. -/
theorem C3_search_by_similarity_amended :
    (∀ (f : String → List ℝ) (rows : List (Memory × Option (List ℝ)))
        (q : String) (n : ℕ),
        (MemoryStore.search_by_similarity (some f) rows q n).length ≤ n ∧
        List.Chain' (fun a b : Memory × ℝ => b.2 ≤ a.2)
          (MemoryStore.search_by_similarity (some f) rows q n) ∧
        (∀ p ∈ MemoryStore.search_by_similarity (some f) rows q n,
          ∃ e, (p.1, some e) ∈ rows ∧
            p.2 = EmbeddingService.cosine_similarity (f q) e)) ∧
    (∀ (rows : List (Memory × Option (List ℝ))) (q : String) (n : ℕ),
        MemoryStore.search_by_similarity none rows q n =
          (MemoryStore.search_by_keywords ((split_whitespace q).take 5)
            (rows.map Prod.fst)).map fun m => (m, (1 / 2 : ℝ))) := by
  constructor
  · intro f rows q n
    refine ⟨?_, ?_, ?_⟩
    · exact List.length_take_le n _
    · exact (chain'_sortDescBy (fun p : Memory × ℝ => p.2) _).take _
    · intro p hp
      have hp1 : p ∈ sortDescBy (fun p : Memory × ℝ => p.2)
          ((rows.filterMap fun r => r.2.map fun e => (r.1, e)).map fun me =>
            (me.1, EmbeddingService.cosine_similarity (f q) me.2)) :=
        List.take_subset n _ hp
      rw [mem_sortDescBy] at hp1
      obtain ⟨me, hme, hpe⟩ := List.mem_map.mp hp1
      obtain ⟨r, hr, hg⟩ := List.mem_filterMap.mp hme
      refine ⟨me.2, ?_, ?_⟩
      · cases hr2 : r.2 with
        | none => rw [hr2] at hg; exact absurd hg (by simp)
        | some e =>
            rw [hr2] at hg
            simp only [Option.map_some', Option.some.injEq] at hg
            have hme2 : (me.1, some me.2) = r := by
              rw [← hg]
              show (r.1, some e) = r
              rw [← hr2]
            rw [← hpe]
            show (me.1, some me.2) ∈ rows
            rw [hme2]
            exact hr
      · rw [← hpe]
  · intro rows q n
    rfl

/-- Counterexample to C3 as stated: with no embedding service, two
keyword-matching rows and `limit = 1`, `search_by_similarity` returns
2 pairs. -/
theorem C3_search_limit_counterexample : ¬ spec_search_at_most_limit := by
  intro h
  have h1 := h none c3_rows "alpha" 1
  have h2 : (MemoryStore.search_by_similarity none c3_rows "alpha" 1).length = 2 := by
    show ((MemoryStore.search_by_keywords ((split_whitespace "alpha").take 5)
      (c3_rows.map Prod.fst)).map fun m => (m, (1 / 2 : ℝ))).length = 2
    rw [List.length_map]
    decide
  omega

/-- Witness for the amended C3 on concrete inputs for both paths. -/
theorem C3_search_by_similarity_amended_witness :
    ((MemoryStore.search_by_similarity (some fun _ => [1]) [] "q" 3).length ≤ 3 ∧
      List.Chain' (fun a b : Memory × ℝ => b.2 ≤ a.2)
        (MemoryStore.search_by_similarity (some fun _ => [1]) [] "q" 3) ∧
      (∀ p ∈ MemoryStore.search_by_similarity (some fun _ => [1]) [] "q" 3,
        ∃ e, (p.1, some e) ∈ ([] : List (Memory × Option (List ℝ))) ∧
          p.2 = EmbeddingService.cosine_similarity ((fun _ => [1]) "q") e)) ∧
    MemoryStore.search_by_similarity none c3_rows "alpha" 1 =
      (MemoryStore.search_by_keywords ((split_whitespace "alpha").take 5)
        (c3_rows.map Prod.fst)).map fun m => (m, (1 / 2 : ℝ)) :=
  ⟨C3_search_by_similarity_amended.1 (fun _ => [1]) [] "q" 3,
   C3_search_by_similarity_amended.2 c3_rows "alpha" 1⟩

/-! ## Subagent handler (`tools/handlers/subagent.rs`)

`Config` (crate `config`) and `AskForApproval` (crate `protocol`) are
declared outside the sources at hand; only the fields this handler
touches are modelled concretely, all remaining configuration fields are
collapsed into an opaque `rest` component. -/

/-- Modelled from the spec: the approval-policy enum (`AskForApproval`,
defined in the protocol crate, absent from the sources); the spec lists
approval modes Never, OnRequest and Always. -/
inductive AskForApproval where
  | never
  | on_request
  | always
  deriving DecidableEq, Repr

/-- Modelled from the spec: the parent/child session configuration
(`Config` from the config crate, absent from the sources).  `cwd`,
`approval_policy` and `subagent_max_tasks` are the fields the subagent
handler reads or writes; every other field is abstracted into `rest`. -/
structure Config (ρ : Type) where
  cwd : String
  approval_policy : AskForApproval
  subagent_max_tasks : ℤ
  rest : ρ

/-- A task descriptor (`SubagentTask`). -/
structure SubagentTask where
  name : String
  prompt : String
  cwd : Option String := none
  timeout_ms : Option ℤ := none

/-- Unix `Path::is_absolute`: the path starts with `/`. -/
def rPathIsAbsolute (p : String) : Bool :=
  p.toList.head? == some '/'

/-- `Path::join` (via `PathBuf::push`): an absolute path replaces the
base, otherwise it is appended behind a separator. -/
def rPathJoin (base p : String) : String :=
  if rPathIsAbsolute p then p
  else if base = "" ∨ base.toList.getLast? == some '/' then base ++ p
  else base ++ "/" ++ p

/-- Rust `str::trim` (whitespace from both ends). -/
def trimChars (s : String) : String :=
  String.mk (((s.toList.dropWhile Char.isWhitespace).reverse.dropWhile
    Char.isWhitespace).reverse)

/-- `resolve_child_cwd`: absent or all-whitespace override keeps the
parent cwd; an absolute override replaces it; a relative override is
joined onto it. -/
def resolve_child_cwd (parent_cwd : String) (maybe_cwd : Option String) : String :=
  match maybe_cwd with
  | some cwd =>
      let trimmed := trimChars cwd
      if trimmed = "" then parent_cwd
      else if rPathIsAbsolute trimmed then trimmed
      else rPathJoin parent_cwd trimmed
  | none => parent_cwd

/-- `make_child_config`: clone the parent, overriding only the working
directory and forcing the approval policy to Never. -/
def make_child_config {ρ : Type} (parent : Config ρ) (cwd : String) : Config ρ :=
  { parent with cwd := cwd, approval_policy := .never }

/-- `effective_subagent_limit`: `raw_limit.clamp(MIN, CAP) as usize`.
The constants `SUBAGENT_LIMIT_MIN` / `SUBAGENT_LIMIT_HARD_CAP` live in
the config crate (absent from the sources) and are kept as parameters;
`i64::clamp` requires `minL ≤ capL`. -/
def effective_subagent_limit (minL capL raw_limit : ℤ) : ℕ :=
  (if raw_limit < minL then minL
   else if raw_limit > capL then capL
   else raw_limit).toNat

/-- Outcome of `SubagentHandler::handle`: a model-visible error, or the
spawned children (child config and prompt per task, in order). -/
inductive SubagentHandleOutcome (ρ : Type) where
  | respond_to_model (msg : String)
  | spawned (children : List (Config ρ × String))

namespace SubagentHandler

/-- `SubagentHandler::handle` after argument parsing: reject an empty
task list, then reject task counts beyond the applied limit, otherwise
spawn one child conversation per task with the child configuration. -/
def handle {ρ : Type} (minL capL : ℤ) (parent_config : Config ρ)
    (parent_cwd : String) (tasks : List SubagentTask) :
    SubagentHandleOutcome ρ :=
  if tasks.isEmpty then .respond_to_model "tasks must not be empty"
  else
    let task_limit := effective_subagent_limit minL capL parent_config.subagent_max_tasks
    if tasks.length > task_limit then
      .respond_to_model ("too many subagent tasks (limit " ++ toString task_limit ++ ")")
    else
      .spawned (tasks.map fun task =>
        (make_child_config parent_config (resolve_child_cwd parent_cwd task.cwd),
         task.prompt))

end SubagentHandler

/-- C5: the applied limit is the configured limit clamped into
`[SUBAGENT_LIMIT_MIN, SUBAGENT_LIMIT_HARD_CAP]`; an invocation with more
tasks than the applied limit gets a model-visible error and spawns
nothing; an empty task list is likewise rejected; children are spawned
only when the count is within the applied limit, one per task. -/
theorem C5_subagent_limit_clamp {ρ : Type} (minL capL : ℤ) (cfg : Config ρ)
    (pcwd : String) (tasks : List SubagentTask) :
    (0 ≤ minL → minL ≤ capL →
      (effective_subagent_limit minL capL cfg.subagent_max_tasks : ℤ) =
        max minL (min capL cfg.subagent_max_tasks)) ∧
    (tasks = [] →
      SubagentHandler.handle minL capL cfg pcwd tasks =
        .respond_to_model "tasks must not be empty") ∧
    (tasks.length > effective_subagent_limit minL capL cfg.subagent_max_tasks →
      SubagentHandler.handle minL capL cfg pcwd tasks =
        .respond_to_model ("too many subagent tasks (limit " ++
          toString (effective_subagent_limit minL capL cfg.subagent_max_tasks) ++ ")")) ∧
    (∀ children, SubagentHandler.handle minL capL cfg pcwd tasks = .spawned children →
      tasks.length ≤ effective_subagent_limit minL capL cfg.subagent_max_tasks ∧
      children.length = tasks.length) := by
  refine ⟨?_, ?_, ?_, ?_⟩
  · intro h0 hmc
    rw [effective_subagent_limit]
    split_ifs <;> omega
  · intro h
    subst h
    rfl
  · intro h
    have hne : ¬ tasks.isEmpty = true := by
      cases tasks with
      | nil => exact absurd h (by simp)
      | cons a l => simp
    rw [SubagentHandler.handle, if_neg hne]
    simp only [if_pos h]
  · intro children h
    rw [SubagentHandler.handle] at h
    by_cases he : tasks.isEmpty = true
    · rw [if_pos he] at h
      exact absurd h (by simp)
    · rw [if_neg he] at h
      by_cases hgt :
          tasks.length > effective_subagent_limit minL capL cfg.subagent_max_tasks
      · simp only [if_pos hgt] at h
        exact absurd h (by simp)
      · simp only [if_neg hgt] at h
        refine ⟨by omega, ?_⟩
        have := (SubagentHandleOutcome.spawned.injEq _ _).mp h.symm
        rw [this, List.length_map]

/-- A concrete parent configuration for the subagent witnesses. -/
def c5_parent : Config Unit :=
  { cwd := "/repo", approval_policy := .always, subagent_max_tasks := 2, rest := () }

/-- A concrete task for the subagent witnesses. -/
def c5_task (n : String) : SubagentTask := { name := n, prompt := "do " ++ n }

/-- Witness for C5 with `MIN = 1`, `CAP = 8`, configured limit 2 and a
three-task call, which is rejected. -/
theorem C5_subagent_limit_clamp_witness :
    ((effective_subagent_limit 1 8 c5_parent.subagent_max_tasks : ℤ) =
        max 1 (min 8 c5_parent.subagent_max_tasks)) ∧
    (SubagentHandler.handle 1 8 c5_parent "/repo" [] =
      .respond_to_model "tasks must not be empty") ∧
    (SubagentHandler.handle 1 8 c5_parent "/repo"
        [c5_task "a", c5_task "b", c5_task "c"] =
      .respond_to_model ("too many subagent tasks (limit " ++
        toString (effective_subagent_limit 1 8 c5_parent.subagent_max_tasks) ++ ")")) :=
  ⟨(C5_subagent_limit_clamp 1 8 c5_parent "/repo" []).1 (by decide) (by decide),
   (C5_subagent_limit_clamp 1 8 c5_parent "/repo" []).2.1 rfl,
   (C5_subagent_limit_clamp 1 8 c5_parent "/repo"
      [c5_task "a", c5_task "b", c5_task "c"]).2.2.1 (by decide)⟩

/-- C6: a child configuration agrees with its parent on every field
except the approval policy (forced to Never) and the working directory
(the trimmed override when absolute, joined onto the parent cwd when
relative, the parent cwd when absent or all-whitespace). -/
theorem C6_child_config_isolation {ρ : Type} (parent : Config ρ) (pcwd : String)
    (ov : Option String) :
    (make_child_config parent (resolve_child_cwd pcwd ov)).rest = parent.rest ∧
    (make_child_config parent (resolve_child_cwd pcwd ov)).subagent_max_tasks =
      parent.subagent_max_tasks ∧
    (make_child_config parent (resolve_child_cwd pcwd ov)).approval_policy =
      .never ∧
    (make_child_config parent (resolve_child_cwd pcwd ov)).cwd =
      resolve_child_cwd pcwd ov ∧
    (ov = none → resolve_child_cwd pcwd ov = pcwd) ∧
    (∀ s, ov = some s → trimChars s = "" → resolve_child_cwd pcwd ov = pcwd) ∧
    (∀ s, ov = some s → trimChars s ≠ "" → rPathIsAbsolute (trimChars s) = true →
      resolve_child_cwd pcwd ov = trimChars s) ∧
    (∀ s, ov = some s → trimChars s ≠ "" → rPathIsAbsolute (trimChars s) = false →
      resolve_child_cwd pcwd ov = rPathJoin pcwd (trimChars s)) := by
  refine ⟨rfl, rfl, rfl, rfl, ?_, ?_, ?_, ?_⟩
  · intro h
    subst h
    rfl
  · intro s hs h
    subst hs
    simp only [resolve_child_cwd]
    rw [if_pos h]
  · intro s hs hne habs
    subst hs
    simp only [resolve_child_cwd]
    rw [if_neg hne, if_pos habs]
  · intro s hs hne habs
    subst hs
    simp only [resolve_child_cwd]
    rw [if_neg hne, if_neg (by simp [habs])]

/-- Witness for C6: parent in `/repo` with policy Always, override
`" sub "` (relative, whitespace-padded). -/
theorem C6_child_config_isolation_witness :
    (make_child_config c5_parent (resolve_child_cwd "/repo" (some " sub "))).rest
      = c5_parent.rest ∧
    (make_child_config c5_parent
        (resolve_child_cwd "/repo" (some " sub "))).approval_policy = .never ∧
    resolve_child_cwd "/repo" (some " sub ") = rPathJoin "/repo" (trimChars " sub ") :=
  ⟨(C6_child_config_isolation c5_parent "/repo" (some " sub ")).1,
   (C6_child_config_isolation c5_parent "/repo" (some " sub ")).2.2.1,
   (C6_child_config_isolation c5_parent "/repo" (some " sub ")).2.2.2.2.2.2.2
     " sub " rfl (by decide) (by decide)⟩

/-! ## Rule-based extractor (`memory/extractor.rs`)

Rust's byte-slicing `truncate` helper panics when the cut is not a UTF-8
character boundary; the panic is modelled as `none` and propagated.
`Instant` timestamps are seconds as naturals; the `HashMap` of recent
failures is an association list with replace-on-insert. -/

/-- Rust `str::starts_with`. -/
def strStartsWith (s p : String) : Bool := p.toList.isPrefixOf s.toList

/-- Rust `str::contains` (case-sensitive substring). -/
def strContains (hay needle : String) : Bool := isSubstr needle.toList hay.toList

/-- UTF-8 byte length of a string (`str::len`). -/
def utf8Len (s : String) : ℕ := (s.toList.map Char.utf8Size).sum

/-- Byte-indexed prefix `&s[..n]` on the character list: `none` when `n`
overruns the string or falls inside a character (the Rust panic). -/
def utf8TakeBytes? : List Char → ℕ → Option (List Char)
  | _, 0 => some []
  | [], _ + 1 => none
  | c :: cs, n + 1 =>
      if c.utf8Size ≤ n + 1 then (utf8TakeBytes? cs (n + 1 - c.utf8Size)).map (c :: ·)
      else none

/-- The extractor's `truncate(s, max_len)`: identity when the string
fits, else the byte-prefix slice (which can panic → `none`). -/
def truncate (s : String) (max_len : ℕ) : Option String :=
  if utf8Len s ≤ max_len then some s
  else (utf8TakeBytes? s.toList max_len).map String.mk

/-- `FailedAttempt` (extractor.rs): a failure awaiting a fix. -/
structure FailedAttempt where
  command : String
  error : String
  timestamp : ℕ
  deriving DecidableEq, Repr

/-- The `recent_failures` HashMap, as an association list. -/
abbrev FailMap := List (String × FailedAttempt)

/-- `HashMap::insert` (replacing any previous binding of the key). -/
def mapInsert (k : String) (v : FailedAttempt) (m : FailMap) : FailMap :=
  (k, v) :: m.filter fun kv => kv.1 ≠ k

/-- `join(" ")` of command tokens. -/
def joinSpace : List String → String
  | [] => ""
  | [x] => x
  | x :: xs => x ++ " " ++ joinSpace xs

/-- Extractor state: the sliding failure map and its maximum age
(300 s in `MemoryExtractor::new`). -/
structure ExtractorState where
  recent_failures : FailMap
  max_failure_age_secs : ℕ := 300

namespace MemoryExtractor

/-- `failure_key`: the first two whitespace-separated tokens, joined by
one space. -/
def failure_key (command : String) : String :=
  joinSpace ((split_whitespace command).take 2)

/-- `record_failure`: drop entries older than the maximum age, then
insert the new failure under its key. -/
def record_failure (command error : String) (now : ℕ) (st : ExtractorState) :
    FailMap :=
  mapInsert (failure_key command) ⟨command, error, now⟩
    (st.recent_failures.filter fun kv =>
      now - kv.2.timestamp < st.max_failure_age_secs)

/-- The Lesson built by `check_for_fix` when a success matches a
recorded failure: the content uses the truncated strings `t1 t2 t3`,
the context the untruncated originals. -/
def fix_lesson (failed_command failed_error fix_command t1 t2 t3 : String) : Memory :=
  ((Memory.new .lesson
      ("When '" ++ t1 ++ "' fails with '" ++ t2
        ++ "', try '" ++ t3 ++ "'")).with_context
    ("Failed command: " ++ failed_command ++ "\nError: " ++ failed_error
      ++ "\nFix: " ++ fix_command)).with_importance (95 / 100)

/-- Body of `check_for_fix` after the `HashMap::remove` lookup. -/
def check_fix_entry (command : String) (failures : FailMap) :
    Option FailedAttempt → Option (Option Memory × FailMap)
  | some failed =>
      match truncate failed.command 50, truncate failed.error 100,
          truncate command 50 with
      | some t1, some t2, some t3 =>
          some (some (fix_lesson failed.command failed.error command t1 t2 t3),
            failures.filter fun kv => kv.1 ≠ failure_key command)
      | _, _, _ => none
  | none => some (none, failures)

/-- `check_for_fix`: remove the entry under this command's key; if one
was present, emit the 0.95 fix Lesson. -/
def check_for_fix (command : String) (failures : FailMap) :
    Option (Option Memory × FailMap) :=
  check_fix_entry command failures (failures.lookup (failure_key command))

/-- `extract_from_failure`: classify stderr into the three failure
families; importance 0.8. -/
def extract_from_failure (command stderr : String) : Option (Option Memory) :=
  if strContains stderr "ENOENT" || strContains stderr "not found" then
    match truncate command 30, truncate stderr 200 with
    | some tc, some ts =>
        some (some (((Memory.new .lesson
            ("Command '" ++ tc
              ++ "' failed: required binary or file not found")).with_context
          ("Error: " ++ ts)).with_importance (8 / 10)))
    | _, _ => none
  else if strContains stderr "permission denied" then
    match truncate command 30, truncate stderr 200 with
    | some tc, some ts =>
        some (some (((Memory.new .lesson
            ("Command '" ++ tc ++ "' requires elevated permissions")).with_context
          ("Error: " ++ ts)).with_importance (8 / 10)))
    | _, _ => none
  else if strContains stderr "ECONNREFUSED"
      || strContains stderr "connection refused" then
    match truncate command 30, truncate stderr 200 with
    | some tc, some ts =>
        some (some (((Memory.new .lesson
            ("Command '" ++ tc
              ++ "' failed: service not running or connection refused")).with_context
          ("Error: " ++ ts)).with_importance (8 / 10)))
    | _, _ => none
  else some none

/-- Test-framework detection of `extract_from_success` (the
`command.contains("test")` block): Jest first, then pytest. -/
def extract_success_tests (command output : String) (rows : Store) :
    Option (Option Memory) :=
  if strContains command "test" then
    if (strContains output "jest" || strContains output "PASS"
          || strContains output "FAIL")
        && !MemoryStore.exists_similar rows "Project uses Jest for testing" .fact then
      some (some (Memory.new .fact "Project uses Jest for testing"))
    else if (strContains output "pytest" || strContains output "collected")
        && !MemoryStore.exists_similar rows "Project uses pytest for testing" .fact then
      some (some (Memory.new .fact "Project uses pytest for testing"))
    else some none
  else some none

/-- Build-tool detection of `extract_from_success`, falling through to
the test-framework checks. -/
def extract_success_cargo (command output cwd : String) (rows : Store) :
    Option (Option Memory) :=
  if strStartsWith command "cargo "
      && !MemoryStore.exists_similar rows "Project uses Cargo/Rust" .fact then
    some (some ((Memory.new .fact "Project uses Cargo/Rust").with_source_file cwd))
  else extract_success_tests command output rows

/-- Package-manager branch of `extract_from_success`, applied to
`command.split_whitespace().next()` (the `?` returns `Some(None)` -- no
memory -- when no token exists). -/
def extract_success_pm (command output cwd : String) (rows : Store) :
    Option String → Option (Option Memory)
  | none => some none
  | some pm =>
      if !MemoryStore.exists_similar rows
          ("Project uses " ++ pm ++ " as package manager") .fact then
        match truncate command 50 with
        | some tc =>
            some (some (((Memory.new .fact
                ("Project uses " ++ pm ++ " as package manager")).with_source_file
              cwd).with_context ("detected from running: " ++ tc)))
        | none => none
      else extract_success_cargo command output cwd rows

/-- `extract_from_success`: package-manager prefix → Fact (deduped),
then build tool, then test frameworks. -/
def extract_from_success (command output cwd : String) (rows : Store) :
    Option (Option Memory) :=
  if strStartsWith command "npm " || strStartsWith command "pnpm "
      || strStartsWith command "yarn " then
    extract_success_pm command output cwd rows (split_whitespace command).head?
  else extract_success_cargo command output cwd rows

/-- Assembly of the success path of `on_exec_complete` from the results
of `check_for_fix` and `extract_from_success` (`none` = panic). -/
def finish_success (st : ExtractorState) (rows : Store) :
    Option (Option Memory × FailMap) → Option (Option Memory) →
    Option (List Memory × ExtractorState × Store)
  | some (fix?, failures'), some fact? =>
      some (fix?.toList ++ fact?.toList,
        { st with recent_failures := failures' },
        (fix?.toList ++ fact?.toList).foldl MemoryStore.insert rows)
  | none, _ => none
  | some _, none => none

/-- Assembly of the failure path of `on_exec_complete`. -/
def finish_failure (st : ExtractorState) (rows : Store) (failures' : FailMap) :
    Option (Option Memory) → Option (List Memory × ExtractorState × Store)
  | some lesson? =>
      some (lesson?.toList, { st with recent_failures := failures' },
        lesson?.toList.foldl MemoryStore.insert rows)
  | none => none

/-- `on_exec_complete`: on success, check for a fix then extract a
fact; on failure, record the failure then extract a lesson; insert every
produced memory into the store. -/
def on_exec_complete (st : ExtractorState) (rows : Store) (command : String)
    (exit_code : ℤ) (stdout stderr : String) (cwd : String) (now : ℕ) :
    Option (List Memory × ExtractorState × Store) :=
  if exit_code = 0 then
    finish_success st rows (check_for_fix command st.recent_failures)
      (extract_from_success command stdout cwd rows)
  else
    finish_failure st rows (record_failure command stderr now st)
      (extract_from_failure command stderr)

end MemoryExtractor

/-- The Fact produced by a successful `npm install` in `/proj`. -/
def c9_memory : Memory :=
  ((Memory.new .fact "Project uses npm as package manager").with_source_file
    "/proj").with_context ("detected from running: " ++ "npm install")

/-- The 0.8 Lesson produced by the failing `npm test`. -/
def c1_lesson1 : Memory :=
  ((Memory.new .lesson
      "Command 'npm test' failed: required binary or file not found").with_context
    ("Error: " ++ "ENOENT: npm not found")).with_importance (8 / 10)

/-- Extractor state after the failing `npm test` at time 0. -/
def c1_st1 : ExtractorState :=
  ⟨[("npm test", ⟨"npm test", "ENOENT: npm not found", 0⟩)], 300⟩

/-- The Fact produced by the successful `pnpm test`. -/
def c1_fact2 : Memory :=
  ((Memory.new .fact "Project uses pnpm as package manager").with_source_file
    "/proj").with_context ("detected from running: " ++ "pnpm test")

/-- C9: a successful `npm install` against an empty store yields exactly
one Fact "Project uses npm as package manager" with importance 0.5, and
a second identical exec yields nothing because `exists_similar` now
rejects it. -/
theorem C9_package_manager_detection :
    MemoryExtractor.on_exec_complete ⟨[], 300⟩ [] "npm install" 0
        "added 42 packages" "" "/proj" 0
      = some ([c9_memory], ⟨[], 300⟩, [c9_memory]) ∧
    c9_memory.memory_type = .fact ∧
    c9_memory.content = "Project uses npm as package manager" ∧
    c9_memory.importance = 5 / 10 ∧
    MemoryStore.exists_similar [c9_memory]
      "Project uses npm as package manager" .fact = true ∧
    MemoryExtractor.on_exec_complete ⟨[], 300⟩ [c9_memory] "npm install" 0
        "added 42 packages" "" "/proj" 600
      = some ([], ⟨[], 300⟩, [c9_memory]) :=
  ⟨rfl, rfl, by decide, rfl, by decide, rfl⟩

/-- Counterexample to C1 as stated: a failed `npm test` (key "npm test")
followed within the window by a successful `pnpm test` (key "pnpm test")
produces NO memory with the claimed fix-Lesson content; the keys differ,
so `check_for_fix` finds nothing.  The only Lesson produced is the 0.8
failure-family Lesson from the first event, and the second event yields
a package-manager Fact. -/
theorem C1_failure_fix_counterexample :
    MemoryExtractor.on_exec_complete ⟨[], 300⟩ [] "npm test" 1 ""
        "ENOENT: npm not found" "/proj" 0
      = some ([c1_lesson1], c1_st1, [c1_lesson1]) ∧
    MemoryExtractor.on_exec_complete c1_st1 [c1_lesson1] "pnpm test" 0 "" ""
        "/proj" 10
      = some ([c1_fact2], c1_st1, [c1_lesson1, c1_fact2]) ∧
    MemoryExtractor.failure_key "npm test" = "npm test" ∧
    MemoryExtractor.failure_key "pnpm test" = "pnpm test" ∧
    (∀ m ∈ [c1_lesson1, c1_fact2],
      m.content ≠ "When 'npm test' fails with 'ENOENT: npm not found', try 'pnpm test'") ∧
    [c1_lesson1, c1_fact2].countP (fun m => m.memory_type == .lesson) = 1 ∧
    c1_lesson1.memory_type = .lesson ∧
    c1_lesson1.importance = 8 / 10 :=
  ⟨rfl, rfl, by decide, by decide, by decide, by decide, rfl, by
    show max 0 (min 1 (8 / 10 : ℚ)) = 8 / 10
    norm_num⟩

lemma truncate_total (s : String) (n : ℕ) (h : utf8Len s ≤ n) :
    truncate s n = some s := by
  rw [truncate, if_pos h]

lemma extract_from_failure_total (c e : String) (hc : utf8Len c ≤ 30)
    (he : utf8Len e ≤ 200) :
    ∃ l, MemoryExtractor.extract_from_failure c e = some l := by
  rw [MemoryExtractor.extract_from_failure]
  split_ifs with h1 h2 h3
  · rw [truncate_total _ _ hc, truncate_total _ _ he]
    exact ⟨_, rfl⟩
  · rw [truncate_total _ _ hc, truncate_total _ _ he]
    exact ⟨_, rfl⟩
  · rw [truncate_total _ _ hc, truncate_total _ _ he]
    exact ⟨_, rfl⟩
  · exact ⟨_, rfl⟩

lemma extract_success_tests_total (c out : String) (rows : Store) :
    ∃ r, MemoryExtractor.extract_success_tests c out rows = some r := by
  rw [MemoryExtractor.extract_success_tests]
  split_ifs <;> exact ⟨_, rfl⟩

lemma extract_success_cargo_total (c out cwd : String) (rows : Store) :
    ∃ r, MemoryExtractor.extract_success_cargo c out cwd rows = some r := by
  rw [MemoryExtractor.extract_success_cargo]
  split_ifs
  · exact ⟨_, rfl⟩
  · exact extract_success_tests_total c out rows

lemma extract_from_success_total (c out cwd : String) (rows : Store)
    (hc : utf8Len c ≤ 50) :
    ∃ r, MemoryExtractor.extract_from_success c out cwd rows = some r := by
  rw [MemoryExtractor.extract_from_success]
  split_ifs with hpm
  · cases hh : (split_whitespace c).head? with
    | none => exact ⟨_, rfl⟩
    | some pm =>
        rw [MemoryExtractor.extract_success_pm]
        split_ifs
        · rw [truncate_total _ _ hc]
          exact ⟨_, rfl⟩
        · exact extract_success_cargo_total c out cwd rows
  · exact extract_success_cargo_total c out cwd rows

/-- Amended C1: the failure map is keyed by the first two whitespace
tokens, so a fix Lesson is produced only when the successful command has
the SAME key as the failed one (e.g. `npm test` → `npm test`); then the
second event's memory list starts with the 0.95 Lesson
"When '<failed>' fails with '<error>', try '<fix>'" and the failure
entry is cleared.  (`npm test` → `pnpm test` has differing keys and
produces no fix Lesson, as the counterexample shows.) -/
theorem C1_failure_fix_amended (c1 c2 e out2 cwd1 cwd2 : String)
    (t1 t2 maxage : ℕ) (store0 : Store)
    (hkey : MemoryExtractor.failure_key c2 = MemoryExtractor.failure_key c1)
    (hc1 : utf8Len c1 ≤ 30) (hc2 : utf8Len c2 ≤ 50) (he : utf8Len e ≤ 100) :
    ∃ ms1 rows1 ms2 rows2,
      MemoryExtractor.on_exec_complete ⟨[], maxage⟩ store0 c1 1 "" e cwd1 t1
        = some (ms1,
            ⟨[(MemoryExtractor.failure_key c1, ⟨c1, e, t1⟩)], maxage⟩, rows1) ∧
      MemoryExtractor.on_exec_complete
          ⟨[(MemoryExtractor.failure_key c1, ⟨c1, e, t1⟩)], maxage⟩ rows1
          c2 0 out2 "" cwd2 t2
        = some (MemoryExtractor.fix_lesson c1 e c2 c1 e c2 :: ms2,
            ⟨[], maxage⟩, rows2) ∧
      (MemoryExtractor.fix_lesson c1 e c2 c1 e c2).memory_type = .lesson ∧
      (MemoryExtractor.fix_lesson c1 e c2 c1 e c2).content =
        "When '" ++ c1 ++ "' fails with '" ++ e ++ "', try '" ++ c2 ++ "'" ∧
      (MemoryExtractor.fix_lesson c1 e c2 c1 e c2).importance = 95 / 100 := by
  obtain ⟨l1, hl1⟩ := extract_from_failure_total c1 e hc1 (le_trans he (by norm_num))
  obtain ⟨f2, hf2⟩ := extract_from_success_total c2 out2 cwd2
    (l1.toList.foldl MemoryStore.insert store0) hc2
  have hfix : MemoryExtractor.check_for_fix c2
      [(MemoryExtractor.failure_key c1, (⟨c1, e, t1⟩ : FailedAttempt))]
      = some (some (MemoryExtractor.fix_lesson c1 e c2 c1 e c2), []) := by
    rw [MemoryExtractor.check_for_fix, hkey]
    have hlk : List.lookup (MemoryExtractor.failure_key c1)
        [(MemoryExtractor.failure_key c1, (⟨c1, e, t1⟩ : FailedAttempt))]
        = some ⟨c1, e, t1⟩ := by
      simp [List.lookup]
    rw [hlk, MemoryExtractor.check_fix_entry]
    rw [show (⟨c1, e, t1⟩ : FailedAttempt).command = c1 from rfl,
      show (⟨c1, e, t1⟩ : FailedAttempt).error = e from rfl,
      truncate_total c1 50 (le_trans hc1 (by norm_num)),
      truncate_total e 100 he, truncate_total c2 50 hc2]
    have hfilter : List.filter
        (fun kv => decide ¬ kv.1 = MemoryExtractor.failure_key c2)
        [(MemoryExtractor.failure_key c1, (⟨c1, e, t1⟩ : FailedAttempt))] = [] := by
      simp [hkey]
    rw [hfilter]
  refine ⟨l1.toList, l1.toList.foldl MemoryStore.insert store0, f2.toList,
    (MemoryExtractor.fix_lesson c1 e c2 c1 e c2 :: f2.toList).foldl
      MemoryStore.insert (l1.toList.foldl MemoryStore.insert store0),
    ?_, ?_, rfl, rfl, ?_⟩
  · rw [MemoryExtractor.on_exec_complete, if_neg (by norm_num), hl1,
      MemoryExtractor.finish_failure]
    rw [show MemoryExtractor.record_failure c1 e t1 ⟨[], maxage⟩
        = [(MemoryExtractor.failure_key c1, ⟨c1, e, t1⟩)] by
      simp [MemoryExtractor.record_failure, mapInsert]]
  · rw [MemoryExtractor.on_exec_complete, if_pos rfl]
    rw [show (⟨[(MemoryExtractor.failure_key c1, ⟨c1, e, t1⟩)], maxage⟩ :
        ExtractorState).recent_failures
      = [(MemoryExtractor.failure_key c1, ⟨c1, e, t1⟩)] from rfl, hfix, hf2,
      MemoryExtractor.finish_success]
    rfl
  · show max 0 (min 1 (95 / 100 : ℚ)) = 95 / 100
    norm_num

/-- Witness for the amended C1: failed `npm test`, then successful
`npm test` (same key), within the window. -/
theorem C1_failure_fix_amended_witness :
    ∃ ms1 rows1 ms2 rows2,
      MemoryExtractor.on_exec_complete ⟨[], 300⟩ [] "npm test" 1 ""
          "ENOENT: npm not found" "/proj" 0
        = some (ms1,
            ⟨[(MemoryExtractor.failure_key "npm test",
                ⟨"npm test", "ENOENT: npm not found", 0⟩)], 300⟩, rows1) ∧
      MemoryExtractor.on_exec_complete
          ⟨[(MemoryExtractor.failure_key "npm test",
              ⟨"npm test", "ENOENT: npm not found", 0⟩)], 300⟩ rows1
          "npm test" 0 "" "" "/proj" 10
        = some (MemoryExtractor.fix_lesson "npm test" "ENOENT: npm not found"
              "npm test" "npm test" "ENOENT: npm not found" "npm test" :: ms2,
            ⟨[], 300⟩, rows2) ∧
      (MemoryExtractor.fix_lesson "npm test" "ENOENT: npm not found" "npm test"
          "npm test" "ENOENT: npm not found" "npm test").memory_type = .lesson ∧
      (MemoryExtractor.fix_lesson "npm test" "ENOENT: npm not found" "npm test"
          "npm test" "ENOENT: npm not found" "npm test").content =
        "When '" ++ "npm test" ++ "' fails with '" ++ "ENOENT: npm not found"
          ++ "', try '" ++ "npm test" ++ "'" ∧
      (MemoryExtractor.fix_lesson "npm test" "ENOENT: npm not found" "npm test"
          "npm test" "ENOENT: npm not found" "npm test").importance = 95 / 100 :=
  C1_failure_fix_amended "npm test" "npm test" "ENOENT: npm not found" "" "/proj"
    "/proj" 0 10 300 [] rfl (by decide) (by decide) (by decide)

/-! ## Injector truncation (`memory/injector.rs`) -/

/-- Character index of the last occurrence of `c`, or `none`.  Rust's
`rfind` returns the byte index of that occurrence; since `'\n'` is a
one-byte character at a boundary, slicing at that byte index is exactly
keeping the characters before it. -/
def rfindIdx (l : List Char) (c : Char) : Option ℕ :=
  match l.reverse.findIdx? fun x => x = c with
  | some i => some (l.length - 1 - i)
  | none => none

namespace MemoryInjector

/-- `truncate_to_token_limit`: budget is `4 · max_injection_tokens`
bytes; a longer text is byte-sliced at the budget (`&text[..max_chars]`,
which panics — `none` — off a character boundary), cut back to the last
newline when one exists, and suffixed with the truncation marker. -/
def truncate_to_token_limit (max_injection_tokens : ℕ) (text : String) :
    Option String :=
  if utf8Len text ≤ max_injection_tokens * 4 then some text
  else
    match utf8TakeBytes? text.toList (max_injection_tokens * 4) with
    | none => none
    | some truncated =>
        match rfindIdx truncated '\n' with
        | some last_newline =>
            some (String.mk (truncated.take last_newline) ++ "\n... (truncated)")
        | none => some (String.mk truncated ++ "... (truncated)")

end MemoryInjector

/-- C10 (code bug): `truncate_to_token_limit` slices the text at byte
index `4 · max_injection_tokens` without a boundary check, so it panics
(modelled `none`) on multi-byte input — here `"aaa€"` (6 bytes, byte 4
inside `'€'`) with a budget of 1 token = 4 bytes — while an ASCII text
of the same length is truncated normally. -/
theorem C10_truncate_panics_on_multibyte :
    MemoryInjector.truncate_to_token_limit 1 "aaa€" = none ∧
    MemoryInjector.truncate_to_token_limit 1 "aaabbb"
      = some ("aaab" ++ "... (truncated)") := by
  constructor
  · decide
  · decide
